import Mathlib

/-!
Verification development for the `minesweeper.py` knowledge-based player.

The Python source is shallowly embedded below:
- a board cell (Python `(i, j)` tuple of ints) becomes `Cell := ℤ × ℤ`;
- Python `set`s become `Finset`s (the properties proved here are independent
  of set-iteration order; where the source iterates a set we fold over its
  elements in row-major order, one admissible iteration order);
- Python's `None`-signalling returns become `Option`;
- the mutable `MinesweeperAI` object becomes a state record threaded
  explicitly, and `add_knowledge` is split into named phases mirroring the
  numbered steps in the source so intermediate states can be referred to.
-/

set_option linter.unusedVariables false

/-- Board cell: an integer (row, column) pair, as the Python tuples. -/
abbrev Cell : Type := ℤ × ℤ

/-- Row-major order on cells, used only to fix one concrete, executable
iteration order for the Python `set` iterations (CPython's order is
unspecified; every property proved below is independent of this choice). -/
def cellLE (a b : Cell) : Prop := a.1 < b.1 ∨ (a.1 = b.1 ∧ a.2 ≤ b.2)

instance : DecidableRel cellLE := fun a b => by
  unfold cellLE; infer_instance

instance : IsTrans Cell cellLE := ⟨by
  intro a b c h1 h2; unfold cellLE at *; omega⟩

instance : IsAntisymm Cell cellLE := ⟨by
  intro a b h1 h2
  obtain ⟨a1, a2⟩ := a
  obtain ⟨b1, b2⟩ := b
  unfold cellLE at *
  simp only [Prod.mk.injEq]
  constructor <;> omega⟩

instance : IsTotal Cell cellLE := ⟨by
  intro a b; unfold cellLE; omega⟩

/-- One admissible iteration order for a Python set of cells: its elements
sorted by `cellLE`.  Insertion sort is used rather than `Finset.sort`
because it recurses structurally, so concrete instances reduce inside the
kernel; the permutation invariance of sorting makes the lift well defined. -/
def cellList (s : Finset Cell) : List Cell :=
  Quot.liftOn s.val (fun l => List.insertionSort cellLE l)
    (fun l1 l2 h => List.eq_of_perm_of_sorted
      ((List.perm_insertionSort cellLE l1).trans
        (h.trans (List.perm_insertionSort cellLE l2).symm))
      (List.sorted_insertionSort cellLE l1)
      (List.sorted_insertionSort cellLE l2))

/-- Iterating a set visits exactly its members. -/
lemma mem_cellList {s : Finset Cell} {c : Cell} : c ∈ cellList s ↔ c ∈ s := by
  rcases s with ⟨m, hm⟩
  induction m using Quotient.inductionOn with
  | h l => exact (List.perm_insertionSort cellLE l).mem_iff

/-- Models the mine-placement loop body of `Minesweeper.__init__`
(src lines 26-33).  Each iteration draws a candidate `(i, j)` (the list
`choices` records the successive draws of `random.randrange`); the candidate
is added only when `self.board[i][j]` is still `False`, and `board[i][j]`
is `True` exactly for cells already in `self.mines` (both are updated
together at lines 32-33), so the check is a membership test.  The returned
set is `self.mines` after consuming the given draws. -/
def Minesweeper.place_mines (choices : List (ℕ × ℕ)) : Finset (ℕ × ℕ) :=
  choices.foldl (fun m c => if c ∈ m then m else insert c m) ∅

/-- The `Sentence` class (src lines 89-136): a set of cells together with a
count of how many of them are mines.  Structural equality on both fields,
as Python's `__eq__` (src lines 100-101). -/
structure Sentence where
  cells : Finset Cell
  count : ℤ

instance : DecidableEq Sentence := fun a b =>
  decidable_of_iff (a.cells = b.cells ∧ a.count = b.count) (by
    cases a; cases b; simp)

namespace Sentence

/-- `Sentence.known_mines` (src lines 106-111): the full cell set when
`len(self.cells) == self.count`, otherwise Python falls through and
returns `None`. -/
def known_mines (s : Sentence) : Option (Finset Cell) :=
  if (s.cells.card : ℤ) = s.count then some s.cells else none

/-- `Sentence.known_safes` (src lines 113-118): the full cell set when
`self.count == 0`, otherwise `None`. -/
def known_safes (s : Sentence) : Option (Finset Cell) :=
  if s.count = 0 then some s.cells else none

/-- `Sentence.mark_mine` (src lines 120-127): `{cell}.issubset(self.cells)`
is membership; remove the cell and decrement the count. -/
def mark_mine (s : Sentence) (c : Cell) : Sentence :=
  if c ∈ s.cells then ⟨s.cells.erase c, s.count - 1⟩ else s

/-- `Sentence.mark_safe` (src lines 129-135): remove the cell, count
unchanged. -/
def mark_safe (s : Sentence) (c : Cell) : Sentence :=
  if c ∈ s.cells then ⟨s.cells.erase c, s.count⟩ else s

end Sentence

/-- The `MinesweeperAI` object state (src lines 138-157). -/
structure MinesweeperAI where
  height : ℕ
  width : ℕ
  moves_made : Finset Cell
  mines : Finset Cell
  safes : Finset Cell
  knowledge : List Sentence

namespace MinesweeperAI

/-- `MinesweeperAI.mark_mine` (src lines 159-166): add to the global mine
set and propagate into every stored sentence. -/
def mark_mine (s : MinesweeperAI) (c : Cell) : MinesweeperAI :=
  { s with mines := insert c s.mines,
           knowledge := s.knowledge.map (fun st => Sentence.mark_mine st c) }

/-- `MinesweeperAI.mark_safe` (src lines 168-175). -/
def mark_safe (s : MinesweeperAI) (c : Cell) : MinesweeperAI :=
  { s with safes := insert c s.safes,
           knowledge := s.knowledge.map (fun st => Sentence.mark_safe st c) }

/-- The neighbourhood computation of `add_knowledge` step 3
(src lines 199-252), translated branch by branch: a three-way case split on
the row (`0`, `height - 1`, other) and inside each a three-way case split
on the column (`0`, `width - 1`, other), inserting exactly the cells the
corresponding Python branch inserts. -/
def neighbor_cells (height width : ℕ) (cell : Cell) : Finset Cell :=
  if cell.1 = 0 then
    if cell.2 = 0 then
      {(cell.1 + 1, cell.2), (cell.1 + 1, cell.2 + 1), (cell.1, cell.2 + 1)}
    else if cell.2 = (width : ℤ) - 1 then
      {(cell.1 + 1, cell.2), (cell.1 + 1, cell.2 - 1), (cell.1, cell.2 - 1)}
    else
      {(cell.1 + 1, cell.2), (cell.1 + 1, cell.2 + 1), (cell.1, cell.2 + 1),
       (cell.1 + 1, cell.2 - 1), (cell.1, cell.2 - 1)}
  else if cell.1 = (height : ℤ) - 1 then
    if cell.2 = 0 then
      {(cell.1 - 1, cell.2), (cell.1 - 1, cell.2 + 1), (cell.1, cell.2 + 1)}
    else if cell.2 = (width : ℤ) - 1 then
      {(cell.1 - 1, cell.2), (cell.1 - 1, cell.2 - 1), (cell.1, cell.2 - 1)}
    else
      {(cell.1 - 1, cell.2), (cell.1 - 1, cell.2 + 1), (cell.1, cell.2 + 1),
       (cell.1 - 1, cell.2 - 1), (cell.1, cell.2 - 1)}
  else
    if cell.2 = 0 then
      {(cell.1 - 1, cell.2), (cell.1 + 1, cell.2), (cell.1 - 1, cell.2 + 1),
       (cell.1, cell.2 + 1), (cell.1 + 1, cell.2 + 1)}
    else if cell.2 = (width : ℤ) - 1 then
      {(cell.1 - 1, cell.2), (cell.1 + 1, cell.2), (cell.1 - 1, cell.2 - 1),
       (cell.1, cell.2 - 1), (cell.1 + 1, cell.2 - 1)}
    else
      {(cell.1 - 1, cell.2), (cell.1 + 1, cell.2), (cell.1 - 1, cell.2 + 1),
       (cell.1, cell.2 + 1), (cell.1 + 1, cell.2 + 1), (cell.1 - 1, cell.2 - 1),
       (cell.1, cell.2 - 1), (cell.1 + 1, cell.2 - 1)}

/-- The partition-and-insert part of `add_knowledge` step 3
(src lines 254-265).  Note the source tests `{cell} < self.mines` and
`{cell} < self.safes` with `<`, Python's STRICT subset on sets, so a
neighbour equal to the whole singleton global set fails the test; this is
translated literally with `⊂`. -/
def step3 (s : MinesweeperAI) (cell : Cell) (count : ℤ) : MinesweeperAI :=
  let ncells := neighbor_cells s.height s.width cell
  let neighbor_mines := ncells.filter (fun n => ({n} : Finset Cell) ⊂ s.mines)
  let unknown_cells := ncells.filter
    (fun n => ¬ ({n} : Finset Cell) ⊂ s.mines ∧ ¬ ({n} : Finset Cell) ⊂ s.safes)
  { s with knowledge := s.knowledge ++ [⟨unknown_cells, count - (neighbor_mines.card : ℤ)⟩] }

/-- The `known_mines` half of one iteration of the step-4 loop of
`add_knowledge` (src lines 269-273): read the sentence currently at
position `i` (the loop iterates the snapshot `knowledge_copy`, whose
entries alias the entries of `self.knowledge`, which step 4 mutates in
place but never reorders), copy its `known_mines` conclusion if any, and
mark each such cell globally. -/
def extract_mines_at (s : MinesweeperAI) (i : ℕ) : MinesweeperAI :=
  match s.knowledge.get? i with
  | none => s
  | some st =>
    match st.known_mines with
    | some ms => (cellList ms).foldl mark_mine s
    | none => s

/-- The `known_safes` half of one iteration of the step-4 loop
(src lines 275-278), run on the state left by the `known_mines` half (the
Python loop re-reads the same, now mutated, sentence object). -/
def extract_safes_at (s : MinesweeperAI) (i : ℕ) : MinesweeperAI :=
  match s.knowledge.get? i with
  | none => s
  | some st =>
    match st.known_safes with
    | some ss => (cellList ss).foldl mark_safe s
    | none => s

/-- One iteration of the step-4 loop (src lines 269-278). -/
def trivial_extract_at (s : MinesweeperAI) (i : ℕ) : MinesweeperAI :=
  extract_safes_at (extract_mines_at s i) i

/-- The whole step-4 loop (src lines 268-278): the snapshot has the length
of the knowledge list at entry, and marking never changes that length, so
the loop is a fold over positions. -/
def trivial_extract (s : MinesweeperAI) : MinesweeperAI :=
  (List.range s.knowledge.length).foldl trivial_extract_at s

/-- The remove-blanks pass (src lines 281-284): `list.remove` deletes the
first structurally equal element, and only sentences with empty cell sets
are ever passed to it, so the net effect is filtering the empty-celled
sentences out while preserving the order of the rest. -/
def remove_empties (s : MinesweeperAI) : MinesweeperAI :=
  { s with knowledge := s.knowledge.filter (fun st => st.cells ≠ ∅) }

/-- The de-dupe pass over the knowledge list (src lines 287-292): build
`res` by appending each sentence not already present (by structural
equality). -/
def dedup (l : List Sentence) : List Sentence :=
  l.foldl (fun res i => if i ∈ res then res else res ++ [i]) []

/-- The de-dupe pass applied to the state (src line 292). -/
def dedup_knowledge (s : MinesweeperAI) : MinesweeperAI :=
  { s with knowledge := dedup s.knowledge }

/-- State of the AI after steps 1-4 and the cleanup (remove-blanks plus
de-dupe) of `add_knowledge` (src lines 192-292), i.e. just before the
subset-resolution loop.  The `print` at src line 295 has no state effect. -/
def after_cleanup (s : MinesweeperAI) (cell : Cell) (count : ℤ) : MinesweeperAI :=
  dedup_knowledge (remove_empties (trivial_extract
    (step3 (mark_safe { s with moves_made := insert cell s.moves_made } cell) cell count)))

/-- The sentences appended by the subset-resolution loop of `add_knowledge`
step 5 (src lines 297-310), in loop order: for each ordered snapshot pair,
when one cell set is a strict subset of the other, append the difference
sentence. -/
def resolutions (kc : List Sentence) : List Sentence :=
  kc.flatMap (fun s1 => kc.flatMap (fun s2 =>
    if s1.cells ⊂ s2.cells then
      [⟨s2.cells \ s1.cells, s2.count - s1.count⟩]
    else if s2.cells ⊂ s1.cells then
      [⟨s1.cells \ s2.cells, s1.count - s2.count⟩]
    else []))

/-- `MinesweeperAI.add_knowledge` (src lines 177-310): steps 1-4 and the
cleanup, then the subset-resolution appends.  The snapshot `knowledge_copy`
taken at src line 297 is the post-cleanup list and is not mutated while the
loop appends to `self.knowledge`. -/
def add_knowledge (s : MinesweeperAI) (cell : Cell) (count : ℤ) : MinesweeperAI :=
  let s6 := after_cleanup s cell count
  { s6 with knowledge := s6.knowledge ++ resolutions s6.knowledge }

/-- `MinesweeperAI.make_safe_move` (src lines 312-325): scan the safe cells
(one admissible set-iteration order), and remember the last one not already
played; `None` when none qualifies. -/
def make_safe_move (s : MinesweeperAI) : Option Cell :=
  (cellList s.safes).foldl (fun acc c => if c ∉ s.moves_made then some c else acc) none

/-- The cells scanned by `make_random_move` (src lines 335-337): all board
coordinates, rows then columns. -/
def board_cells (height width : ℕ) : List Cell :=
  (List.range height).flatMap
    (fun r => (List.range width).map (fun c => (Int.ofNat r, Int.ofNat c)))

/-- `MinesweeperAI.make_random_move` (src lines 327-342): scan every board
cell and remember the last one neither a known mine nor already played;
`None` when none qualifies. -/
def make_random_move (s : MinesweeperAI) : Option Cell :=
  (board_cells s.height s.width).foldl
    (fun acc p => if p ∉ s.mines ∧ p ∉ s.moves_made then some p else acc) none

/-- A sequence of `add_knowledge` calls on one agent. -/
def run_calls (s : MinesweeperAI) (calls : List (Cell × ℤ)) : MinesweeperAI :=
  calls.foldl (fun t p => add_knowledge t p.1 p.2) s

end MinesweeperAI

/-- Growth of the three global sets between two agent states. -/
def grows (s t : MinesweeperAI) : Prop :=
  s.moves_made ⊆ t.moves_made ∧ s.safes ⊆ t.safes ∧ s.mines ⊆ t.mines

/-- Witness state for C1: a knowledge base holding the two sentences of the
spec's example, revealed cell far away so the cleanup leaves both intact. -/
def resolution_state : MinesweeperAI :=
  ⟨8, 8, ∅, ∅, ∅, [⟨{(0, 0), (0, 1)}, 1⟩, ⟨{(0, 0), (0, 1), (0, 2), (0, 3)}, 1⟩]⟩

/-- Witness state for C8: one safe cell already played, one mine known. -/
def move_state : MinesweeperAI := ⟨2, 2, {(0, 0)}, {(1, 1)}, {(0, 0), (0, 1)}, []⟩

/-! ## Theorems -/

/-- C2: for every sentence, `known_mines` returns a conclusion iff the count
equals the number of cells, `known_safes` returns a conclusion iff the count
is zero, and on the empty cell set with count zero both return the
conclusion `some ∅`, which is distinguishable from the no-conclusion result
`none`. -/
theorem known_mines_known_safes_iff (st : Sentence) :
    ((Sentence.known_mines st).isSome ↔ (st.cells.card : ℤ) = st.count) ∧
    ((Sentence.known_safes st).isSome ↔ st.count = 0) ∧
    (st.cells = ∅ → st.count = 0 →
      Sentence.known_mines st = some ∅ ∧ Sentence.known_safes st = some ∅ ∧
        Sentence.known_safes st ≠ none) := by
  unfold Sentence.known_mines Sentence.known_safes
  refine ⟨?_, ?_, fun h1 h2 => ?_⟩
  · split_ifs with h <;> simp [h]
  · split_ifs with h <;> simp [h]
  · simp [h1, h2]

/-- Witness for C2 at the vacuous sentence `(∅, 0)`. -/
theorem known_mines_known_safes_iff_witness :
    Sentence.known_mines ⟨∅, 0⟩ = some ∅ ∧ Sentence.known_safes ⟨∅, 0⟩ = some ∅ ∧
      Sentence.known_safes ⟨∅, 0⟩ ≠ none :=
  (known_mines_known_safes_iff ⟨∅, 0⟩).2.2 rfl rfl

/-- C7: marking a cell absent from a sentence leaves the sentence unchanged,
both marks are idempotent, and `mark_safe` never changes the count. -/
theorem mark_unchanged_idempotent (st : Sentence) (c : Cell) :
    (c ∉ st.cells → Sentence.mark_mine st c = st ∧ Sentence.mark_safe st c = st) ∧
    Sentence.mark_mine (Sentence.mark_mine st c) c = Sentence.mark_mine st c ∧
    Sentence.mark_safe (Sentence.mark_safe st c) c = Sentence.mark_safe st c ∧
    (Sentence.mark_safe st c).count = st.count := by
  unfold Sentence.mark_mine Sentence.mark_safe
  by_cases hc : c ∈ st.cells <;> simp [hc, Finset.not_mem_erase]

/-- Witness for C7 at a sentence not containing the marked cell. -/
theorem mark_unchanged_idempotent_witness :
    Sentence.mark_mine ⟨{(0, 0)}, 1⟩ (1, 1) = ⟨{(0, 0)}, 1⟩ ∧
      Sentence.mark_safe ⟨{(0, 0)}, 1⟩ (1, 1) = ⟨{(0, 0)}, 1⟩ :=
  (mark_unchanged_idempotent ⟨{(0, 0)}, 1⟩ (1, 1)).1 (by decide)

/-- Helper for C10: every cell the placement loop ever holds lies on the
board, for any draws within `randrange`'s bounds. -/
lemma place_mines_subset (h w : ℕ) :
    ∀ (choices : List (ℕ × ℕ)) (init : Finset (ℕ × ℕ)),
      (∀ c ∈ choices, c.1 < h ∧ c.2 < w) →
      init ⊆ Finset.range h ×ˢ Finset.range w →
      choices.foldl (fun m c => if c ∈ m then m else insert c m) init ⊆
        Finset.range h ×ˢ Finset.range w := by
  intro choices
  induction choices with
  | nil => intro init _ hi; simpa using hi
  | cons a l ih =>
    intro init hc hi
    simp only [List.foldl_cons]
    apply ih
    · intro c hcl
      exact hc c (List.mem_cons_of_mem _ hcl)
    · split_ifs with ha
      · exact hi
      · intro x hx
        rcases Finset.mem_insert.mp hx with h1 | hx2
        · have h2 := hc a (List.mem_cons_self a l)
          rw [h1]
          simp only [Finset.mem_product, Finset.mem_range]
          exact h2
        · exact hi hx2

/-- C10: the mine-placement loop of `Minesweeper.__init__` can never make
its guard `len(self.mines) != mines` false when the requested number of
mines exceeds `height * width`: whatever in-range cells `random.randrange`
draws, the accumulated mine set has at most `height * width` elements, so
the loop never terminates. -/
theorem place_mines_guard_never_false (h w target : ℕ) (choices : List (ℕ × ℕ))
    (hc : ∀ c ∈ choices, c.1 < h ∧ c.2 < w) (ht : h * w < target) :
    (Minesweeper.place_mines choices).card ≠ target := by
  have hsub : Minesweeper.place_mines choices ⊆ Finset.range h ×ˢ Finset.range w :=
    place_mines_subset h w choices ∅ hc (by simp)
  have hcard := Finset.card_le_card hsub
  rw [Finset.card_product, Finset.card_range, Finset.card_range] at hcard
  omega

/-- Witness for C10 on a 1-by-1 board asked for 2 mines. -/
theorem place_mines_guard_never_false_witness :
    1 * 1 < 2 ∧ (Minesweeper.place_mines [(0, 0), (0, 0), (0, 0)]).card ≠ 2 :=
  ⟨by decide, place_mines_guard_never_false 1 1 2 [(0, 0), (0, 0), (0, 0)]
    (by decide) (by decide)⟩

/-- C3 (failing input): with the global mine set exactly `{(0, 1)}`, the
constraint that `add_knowledge((0, 0), 1)` inserts on a 2-by-2 board keeps
the known mine `(0, 1)` in its cell set and does not subtract it from the
count, because src line 257 tests `{cell} < self.mines` with Python's
strict subset `<`, which fails on the singleton; the sentence claimed by
the spec, `({(1, 0), (1, 1)}, 0)`, is nowhere in the knowledge base. -/
theorem add_knowledge_singleton_mine_partition :
    (MinesweeperAI.add_knowledge ⟨2, 2, ∅, {(0, 1)}, ∅, []⟩ (0, 0) 1).knowledge =
      [⟨{(0, 1), (1, 0), (1, 1)}, 1⟩] ∧
    (⟨{(1, 0), (1, 1)}, 0⟩ : Sentence) ∉
      (MinesweeperAI.add_knowledge ⟨2, 2, ∅, {(0, 1)}, ∅, []⟩ (0, 0) 1).knowledge := by
  decide

/-- C4 (counterexample): on a 1-by-1 board the revealed cell `(0, 0)` is in
bounds, yet the computed neighbourhood contains `(1, 1)`, whose row 1 is
not below the height 1 — an out-of-bounds cell, contradicting the claim for
every board with height ≥ 1 and width ≥ 1. -/
theorem neighbor_cells_out_of_bounds :
    ((1, 1) : Cell) ∈ MinesweeperAI.neighbor_cells 1 1 (0, 0) ∧
      ¬ ((1 : ℤ) < ((1 : ℕ) : ℤ)) := by
  decide

/-- C6 (counterexample): starting from a fresh 2-by-3 agent, the reachable
call sequence `add_knowledge((0, 0), 1)` then `add_knowledge((1, 1), 1)`
(consistent with a board whose single mine is at `(0, 1)`) returns with the
derived sentence `({(0, 2), (1, 2)}, 0)` appended twice by the
subset-resolution loop, so two structurally equal constraints coexist. -/
theorem knowledge_dedup_violated :
    ¬ (MinesweeperAI.add_knowledge
        (MinesweeperAI.add_knowledge ⟨2, 3, ∅, ∅, ∅, []⟩ (0, 0) 1) (1, 1) 1).knowledge.Nodup := by
  decide

/-- C9 (counterexample): `add_knowledge` has no bounds check: called on the
out-of-bounds cell `(5, 5)` of a fresh 3-by-3 agent it proceeds, records
the cell as played and safe, and even marks out-of-bounds neighbours such
as `(6, 6)` safe, instead of failing fast. -/
theorem add_knowledge_no_bounds_check :
    ¬ ((5 : ℤ) < ((3 : ℕ) : ℤ)) ∧
    (5, 5) ∈ (MinesweeperAI.add_knowledge ⟨3, 3, ∅, ∅, ∅, []⟩ (5, 5) 0).moves_made ∧
    (6, 6) ∈ (MinesweeperAI.add_knowledge ⟨3, 3, ∅, ∅, ∅, []⟩ (5, 5) 0).safes := by
  refine ⟨by decide, by decide, by decide⟩

lemma grows_refl (s : MinesweeperAI) : grows s s :=
  ⟨subset_rfl, subset_rfl, subset_rfl⟩

lemma grows_trans {s t u : MinesweeperAI} (h1 : grows s t) (h2 : grows t u) : grows s u :=
  ⟨h1.1.trans h2.1, h1.2.1.trans h2.2.1, h1.2.2.trans h2.2.2⟩

lemma grows_mark_mine (s : MinesweeperAI) (c : Cell) : grows s (MinesweeperAI.mark_mine s c) :=
  ⟨subset_rfl, subset_rfl, Finset.subset_insert _ _⟩

lemma grows_mark_safe (s : MinesweeperAI) (c : Cell) : grows s (MinesweeperAI.mark_safe s c) :=
  ⟨subset_rfl, Finset.subset_insert _ _, subset_rfl⟩

lemma grows_foldl {α : Type} {f : MinesweeperAI → α → MinesweeperAI}
    (hf : ∀ s a, grows s (f s a)) :
    ∀ (l : List α) (s : MinesweeperAI), grows s (l.foldl f s) := by
  intro l
  induction l with
  | nil => intro s; exact grows_refl s
  | cons a l ih => intro s; exact grows_trans (hf s a) (ih (f s a))

lemma grows_extract_mines_at (s : MinesweeperAI) (i : ℕ) :
    grows s (MinesweeperAI.extract_mines_at s i) := by
  unfold MinesweeperAI.extract_mines_at
  split
  · exact grows_refl s
  · split
    · exact grows_foldl grows_mark_mine _ s
    · exact grows_refl s

lemma grows_extract_safes_at (s : MinesweeperAI) (i : ℕ) :
    grows s (MinesweeperAI.extract_safes_at s i) := by
  unfold MinesweeperAI.extract_safes_at
  split
  · exact grows_refl s
  · split
    · exact grows_foldl grows_mark_safe _ s
    · exact grows_refl s

lemma grows_trivial_extract_at (s : MinesweeperAI) (i : ℕ) :
    grows s (MinesweeperAI.trivial_extract_at s i) :=
  grows_trans (grows_extract_mines_at s i) (grows_extract_safes_at _ i)

lemma grows_step3 (s : MinesweeperAI) (cell : Cell) (count : ℤ) :
    grows s (MinesweeperAI.step3 s cell count) :=
  ⟨subset_rfl, subset_rfl, subset_rfl⟩

lemma grows_trivial_extract (s : MinesweeperAI) : grows s (MinesweeperAI.trivial_extract s) :=
  grows_foldl grows_trivial_extract_at _ s

lemma grows_remove_empties (s : MinesweeperAI) : grows s (MinesweeperAI.remove_empties s) :=
  ⟨subset_rfl, subset_rfl, subset_rfl⟩

lemma grows_dedup_knowledge (s : MinesweeperAI) : grows s (MinesweeperAI.dedup_knowledge s) :=
  ⟨subset_rfl, subset_rfl, subset_rfl⟩

/-- The global sets never shrink between step 2 of `add_knowledge` and its
return. -/
lemma grows_post_safe (s : MinesweeperAI) (cell : Cell) (count : ℤ) :
    grows (MinesweeperAI.mark_safe { s with moves_made := insert cell s.moves_made } cell)
      (MinesweeperAI.add_knowledge s cell count) :=
  grows_trans (grows_step3 _ cell count)
    (grows_trans (grows_trivial_extract _)
      (grows_trans (grows_remove_empties _)
        (grows_trans (grows_dedup_knowledge _) ⟨subset_rfl, subset_rfl, subset_rfl⟩)))

lemma grows_add_knowledge (s : MinesweeperAI) (cell : Cell) (count : ℤ) :
    grows s (MinesweeperAI.add_knowledge s cell count) :=
  @grows_trans s { s with moves_made := insert cell s.moves_made } _
    ⟨Finset.subset_insert _ _, subset_rfl, subset_rfl⟩
    (grows_trans
      (grows_mark_safe { s with moves_made := insert cell s.moves_made } cell)
      (grows_post_safe s cell count))

/-- C5: across any sequence of `add_knowledge` calls on one agent, the
global `safes` and `mines` sets never lose a member; instantiating the
state at any reachable point gives the per-call statement. -/
theorem safes_mines_monotone (s : MinesweeperAI) (calls : List (Cell × ℤ)) :
    s.safes ⊆ (MinesweeperAI.run_calls s calls).safes ∧
      s.mines ⊆ (MinesweeperAI.run_calls s calls).mines := by
  have h := @grows_foldl (Cell × ℤ) (fun t p => MinesweeperAI.add_knowledge t p.1 p.2)
    (fun t p => grows_add_knowledge t p.1 p.2) calls s
  exact ⟨h.2.1, h.2.2⟩

/-- C9 (amended): `add_knowledge` performs no bounds check at all — called
with an out-of-bounds cell it does not fail but proceeds, recording the
cell as played and marking it safe. -/
theorem add_knowledge_oob_proceeds (s : MinesweeperAI) (cell : Cell) (count : ℤ)
    (hoob : ¬ (0 ≤ cell.1 ∧ cell.1 < (s.height : ℤ) ∧ 0 ≤ cell.2 ∧ cell.2 < (s.width : ℤ))) :
    cell ∈ (MinesweeperAI.add_knowledge s cell count).moves_made ∧
      cell ∈ (MinesweeperAI.add_knowledge s cell count).safes := by
  have h1 := grows_post_safe s cell count
  exact ⟨h1.1 (Finset.mem_insert_self _ _), h1.2.1 (Finset.mem_insert_self _ _)⟩

/-- Witness for C9 (amended) at the out-of-bounds cell `(5, 5)` of a fresh
3-by-3 agent. -/
theorem add_knowledge_oob_proceeds_witness :
    ¬ ((0 : ℤ) ≤ 5 ∧ (5 : ℤ) < ((3 : ℕ) : ℤ) ∧ (0 : ℤ) ≤ 5 ∧ (5 : ℤ) < ((3 : ℕ) : ℤ)) ∧
    ((5, 5) ∈ (MinesweeperAI.add_knowledge ⟨3, 3, ∅, ∅, ∅, []⟩ (5, 5) 0).moves_made ∧
      (5, 5) ∈ (MinesweeperAI.add_knowledge ⟨3, 3, ∅, ∅, ∅, []⟩ (5, 5) 0).safes) :=
  ⟨by decide, add_knowledge_oob_proceeds ⟨3, 3, ∅, ∅, ∅, []⟩ (5, 5) 0 (by decide)⟩

/-- Helper for C6 (amended): the de-dupe fold produces a duplicate-free
list from any duplicate-free accumulator. -/
lemma dedup_aux_nodup (l : List Sentence) :
    ∀ res : List Sentence, res.Nodup →
      (l.foldl (fun res i => if i ∈ res then res else res ++ [i]) res).Nodup := by
  induction l with
  | nil => intro res h; simpa using h
  | cons a l ih =>
    intro res h
    simp only [List.foldl_cons]
    split_ifs with ha
    · exact ih res h
    · exact ih (res ++ [a]) (by simp [List.nodup_append, h, ha])

/-- C6 (amended): at the end of the cleanup (remove-blanks plus de-dupe)
step of every `add_knowledge` call, no two structurally equal constraints
coexist in the knowledge base; the subsequent subset-resolution loop,
however, appends derived constraints without re-deduplication, so the
invariant can be broken again by the time the call returns. -/
theorem knowledge_nodup_after_cleanup (s : MinesweeperAI) (cell : Cell) (count : ℤ) :
    (MinesweeperAI.after_cleanup s cell count).knowledge.Nodup :=
  dedup_aux_nodup _ [] List.nodup_nil

/-- C1: for every ordered pair of sentences `A`, `B` in the knowledge base
after the cleanup step with `A`'s cell set a strict subset of `B`'s, the
derived sentence `(B.cells \ A.cells, B.count - A.count)` is in the
knowledge base when `add_knowledge` returns. -/
theorem add_knowledge_subset_resolution (s : MinesweeperAI) (cell : Cell) (count : ℤ)
    (A B : Sentence)
    (hA : A ∈ (MinesweeperAI.after_cleanup s cell count).knowledge)
    (hB : B ∈ (MinesweeperAI.after_cleanup s cell count).knowledge)
    (hAB : A.cells ⊂ B.cells) :
    (⟨B.cells \ A.cells, B.count - A.count⟩ : Sentence) ∈
      (MinesweeperAI.add_knowledge s cell count).knowledge := by
  show _ ∈ (MinesweeperAI.after_cleanup s cell count).knowledge ++
      MinesweeperAI.resolutions (MinesweeperAI.after_cleanup s cell count).knowledge
  refine List.mem_append_right _ ?_
  unfold MinesweeperAI.resolutions
  refine List.mem_flatMap.mpr ⟨A, hA, ?_⟩
  refine List.mem_flatMap.mpr ⟨B, hB, ?_⟩
  rw [if_pos hAB]
  exact List.mem_singleton_self _

/-- Witness for C1 on the spec's example pair: from `({(0,0),(0,1)}, 1)`
and `({(0,0),(0,1),(0,2),(0,3)}, 1)` the sentence `({(0,2),(0,3)}, 0)` is
derived, whose `known_safes` conclusion is `{(0,2),(0,3)}`. -/
theorem add_knowledge_subset_resolution_witness :
    ((⟨{(0, 0), (0, 1)}, 1⟩ : Sentence) ∈
        (MinesweeperAI.after_cleanup resolution_state (4, 4) 1).knowledge) ∧
    ((⟨{(0, 0), (0, 1), (0, 2), (0, 3)}, 1⟩ : Sentence) ∈
        (MinesweeperAI.after_cleanup resolution_state (4, 4) 1).knowledge) ∧
    (({(0, 0), (0, 1)} : Finset Cell) ⊂ {(0, 0), (0, 1), (0, 2), (0, 3)}) ∧
    ((⟨{(0, 2), (0, 3)}, 0⟩ : Sentence) ∈
        (MinesweeperAI.add_knowledge resolution_state (4, 4) 1).knowledge) ∧
    Sentence.known_safes ⟨{(0, 2), (0, 3)}, 0⟩ = some {(0, 2), (0, 3)} := by
  refine ⟨by decide, by decide, by decide, ?_, by decide⟩
  have h := add_knowledge_subset_resolution resolution_state (4, 4) 1
    ⟨{(0, 0), (0, 1)}, 1⟩ ⟨{(0, 0), (0, 1), (0, 2), (0, 3)}, 1⟩
    (by decide) (by decide) (by decide)
  have e : (⟨({(0, 0), (0, 1), (0, 2), (0, 3)} : Finset Cell) \ {(0, 0), (0, 1)},
      (1 : ℤ) - 1⟩ : Sentence) = ⟨{(0, 2), (0, 3)}, 0⟩ := by decide
  exact e ▸ h

/-- C4 (amended, for boards of height and width at least 2): the
neighbourhood computed by `add_knowledge` for an in-bounds cell consists
exactly of the in-bounds cells at Chebyshev distance one, i.e. those
differing by at most one in each coordinate and distinct from the cell. -/
theorem neighbor_cells_moore (h w : ℕ) (r c i j : ℤ)
    (hh : 2 ≤ h) (hw : 2 ≤ w)
    (hr0 : 0 ≤ r) (hrh : r < (h : ℤ)) (hc0 : 0 ≤ c) (hcw : c < (w : ℤ)) :
    ((i, j) ∈ MinesweeperAI.neighbor_cells h w (r, c) ↔
      ((i ≠ r ∨ j ≠ c) ∧ r - 1 ≤ i ∧ i ≤ r + 1 ∧ c - 1 ≤ j ∧ j ≤ c + 1 ∧
        0 ≤ i ∧ i < (h : ℤ) ∧ 0 ≤ j ∧ j < (w : ℤ))) := by
  unfold MinesweeperAI.neighbor_cells
  dsimp only
  split_ifs with b1 b2 b3 b4 b5 b6 b7 b8 <;>
    simp only [Finset.mem_insert, Finset.mem_singleton, Prod.mk.injEq] <;>
    omega

/-- Witness for C4 (amended) at the centre of a 3-by-3 board. -/
theorem neighbor_cells_moore_witness :
    (2 ≤ 3 ∧ (0 : ℤ) ≤ 1 ∧ (1 : ℤ) < ((3 : ℕ) : ℤ)) ∧
      ((0 : ℤ), (0 : ℤ)) ∈ MinesweeperAI.neighbor_cells 3 3 (1, 1) :=
  ⟨⟨by decide, by decide, by decide⟩,
    (neighbor_cells_moore 3 3 1 1 0 0 (by decide) (by decide) (by decide) (by decide)
      (by decide) (by decide)).mpr (by decide)⟩

/-- The last-match loop returns nothing iff its accumulator started empty
and no scanned element satisfies the pick condition. -/
lemma foldl_pick_none {α : Type} (q : α → Prop) [DecidablePred q] :
    ∀ (l : List α) (init : Option α),
      (l.foldl (fun acc c => if q c then some c else acc) init = none ↔
        init = none ∧ ∀ c ∈ l, ¬ q c) := by
  intro l
  induction l with
  | nil => intro init; simp
  | cons a l ih =>
    intro init
    simp only [List.foldl_cons]
    by_cases ha : q a
    · rw [if_pos ha, ih (some a)]
      simp [ha]
    · rw [if_neg ha, ih init]
      simp [ha]

/-- When the last-match loop returns an element, it is a scanned element
satisfying the pick condition (or the untouched accumulator). -/
lemma foldl_pick_some {α : Type} (q : α → Prop) [DecidablePred q] :
    ∀ (l : List α) (init : Option α) (x : α),
      l.foldl (fun acc c => if q c then some c else acc) init = some x →
      (x ∈ l ∧ q x) ∨ init = some x := by
  intro l
  induction l with
  | nil =>
    intro init x hx
    exact Or.inr hx
  | cons a l ih =>
    intro init x hx
    simp only [List.foldl_cons] at hx
    by_cases ha : q a
    · rw [if_pos ha] at hx
      rcases ih (some a) x hx with h1 | h2
      · exact Or.inl ⟨List.mem_cons_of_mem _ h1.1, h1.2⟩
      · injection h2 with h3
        subst h3
        exact Or.inl ⟨List.mem_cons_self a l, ha⟩
    · rw [if_neg ha] at hx
      rcases ih init x hx with h1 | h2
      · exact Or.inl ⟨List.mem_cons_of_mem _ h1.1, h1.2⟩
      · exact Or.inr h2

/-- The scan order of `make_random_move` visits exactly the board cells. -/
lemma mem_board_cells (h w : ℕ) (p : Cell) :
    p ∈ MinesweeperAI.board_cells h w ↔
      0 ≤ p.1 ∧ p.1 < (h : ℤ) ∧ 0 ≤ p.2 ∧ p.2 < (w : ℤ) := by
  obtain ⟨i, j⟩ := p
  unfold MinesweeperAI.board_cells
  constructor
  · intro hp
    rcases List.mem_flatMap.mp hp with ⟨r, hr, hmem⟩
    rcases List.mem_map.mp hmem with ⟨c, hc, hpair⟩
    rw [List.mem_range] at hr hc
    injection hpair with e1 e2
    have e1' : (r : ℤ) = i := e1
    have e2' : (c : ℤ) = j := e2
    dsimp only
    omega
  · intro hb
    dsimp only at hb
    refine List.mem_flatMap.mpr ⟨i.toNat, ?_, ?_⟩
    · rw [List.mem_range]; omega
    · refine List.mem_map.mpr ⟨j.toNat, ?_, ?_⟩
      · rw [List.mem_range]; omega
      · have e1 : Int.ofNat i.toNat = i := by
          show ((i.toNat : ℕ) : ℤ) = i
          omega
        have e2 : Int.ofNat j.toNat = j := by
          show ((j.toNat : ℕ) : ℤ) = j
          omega
        rw [e1, e2]

/-- C8: `make_safe_move` returns a cell of `safes \ moves_made` and returns
no move exactly when that set is empty; `make_random_move` never returns a
cell in `mines` or `moves_made` and returns no move exactly when every
board cell is a known mine or already played. -/
theorem move_selection_guarantees (s : MinesweeperAI) :
    (∀ c : Cell, MinesweeperAI.make_safe_move s = some c → c ∈ s.safes ∧ c ∉ s.moves_made) ∧
    (MinesweeperAI.make_safe_move s = none ↔ s.safes \ s.moves_made = ∅) ∧
    (∀ c : Cell, MinesweeperAI.make_random_move s = some c → c ∉ s.mines ∧ c ∉ s.moves_made) ∧
    (MinesweeperAI.make_random_move s = none ↔
      ∀ p : Cell, 0 ≤ p.1 → p.1 < (s.height : ℤ) → 0 ≤ p.2 → p.2 < (s.width : ℤ) →
        p ∈ s.mines ∨ p ∈ s.moves_made) := by
  refine ⟨?_, ?_, ?_, ?_⟩
  · intro c hc
    rcases foldl_pick_some (fun c => c ∉ s.moves_made) (cellList s.safes) none c hc with
      h1 | h2
    · exact ⟨mem_cellList.mp h1.1, h1.2⟩
    · cases h2
  · constructor
    · intro hn
      have h1 := (foldl_pick_none (fun c => c ∉ s.moves_made) (cellList s.safes) none).mp hn
      rw [Finset.sdiff_eq_empty_iff_subset]
      intro x hx
      exact not_not.mp (h1.2 x (mem_cellList.mpr hx))
    · intro hs
      refine (foldl_pick_none (fun c => c ∉ s.moves_made) (cellList s.safes) none).mpr
        ⟨rfl, ?_⟩
      intro x hx
      exact not_not.mpr (Finset.sdiff_eq_empty_iff_subset.mp hs (mem_cellList.mp hx))
  · intro c hc
    rcases foldl_pick_some (fun p => p ∉ s.mines ∧ p ∉ s.moves_made)
        (MinesweeperAI.board_cells s.height s.width) none c hc with h1 | h2
    · exact h1.2
    · cases h2
  · constructor
    · intro hn p hp1 hp2 hp3 hp4
      have h1 := (foldl_pick_none (fun p => p ∉ s.mines ∧ p ∉ s.moves_made)
          (MinesweeperAI.board_cells s.height s.width) none).mp hn
      have h2 := h1.2 p ((mem_board_cells s.height s.width p).mpr ⟨hp1, hp2, hp3, hp4⟩)
      by_contra hcon
      push_neg at hcon
      exact h2 ⟨hcon.1, hcon.2⟩
    · intro hall
      refine (foldl_pick_none (fun p => p ∉ s.mines ∧ p ∉ s.moves_made)
          (MinesweeperAI.board_cells s.height s.width) none).mpr ⟨rfl, ?_⟩
      intro p hp
      have h1 := (mem_board_cells s.height s.width p).mp hp
      have h2 := hall p h1.1 h1.2.1 h1.2.2.1 h1.2.2.2
      intro hcon
      rcases h2 with h3 | h3
      · exact hcon.1 h3
      · exact hcon.2 h3

/-- Witness for C8: on `move_state` the safe move returned is `(0, 1)`,
which is safe and not yet played, and the random move returned is `(1, 0)`,
which is neither a known mine nor played. -/
theorem move_selection_guarantees_witness :
    (MinesweeperAI.make_safe_move move_state = some (0, 1) ∧
      (0, 1) ∈ move_state.safes ∧ (0, 1) ∉ move_state.moves_made) ∧
    (MinesweeperAI.make_random_move move_state = some (1, 0) ∧
      (1, 0) ∉ move_state.mines ∧ (1, 0) ∉ move_state.moves_made) :=
  ⟨⟨by decide, (move_selection_guarantees move_state).1 (0, 1) (by decide)⟩,
   ⟨by decide, (move_selection_guarantees move_state).2.2.1 (1, 0) (by decide)⟩⟩
